import Mathlib

/-!
Verification of the game-dashboard control plane (backend written in
TypeScript) against its natural-language specification.

The definitions below are a shallow embedding of the relevant parts of the
source:

* `src/backend/src/db.ts` — the `server_sessions`, `backups` and
  `panel_settings` tables and their prepared queries;
* `src/backend/src/routes/servers.ts` — the start / stop / delete /
  config / history route handlers;
* `src/backend/src/docker.ts` — `startGameContainer`, `stopGameContainer`,
  the multiplexed-log frame parser of `_streamLogs`, and the per-record
  CPU computation of `_streamStats`;
* `src/backend/src/backup.ts` — `createBackup` and `pruneOldBackups`.

Machine numbers coming from JSON stats records are modelled as rationals;
byte streams are modelled as lists of naturals; SQL tables are modelled as
lists of row structures, and each prepared statement as a function on them.
-/

namespace GameDashboard

/-! ## Stats stream (`_streamStats` in docker.ts)

For each JSON stats record the code computes
`cpuDelta = cpu_stats.cpu_usage.total_usage - precpu_stats.cpu_usage.total_usage`,
`systemDelta = (cpu_stats.system_cpu_usage ?? 0) - (precpu_stats.system_cpu_usage ?? 0)`,
`numCpus = cpu_stats.online_cpus ?? cpu_stats.cpu_usage.percpu_usage?.length ?? 1`,
`cpuPercent = systemDelta > 0 ? (cpuDelta / systemDelta) * numCpus * 100 : 0`
and yields `Math.max(0, Math.min(cpuPercent, 100))`. -/

structure CpuUsage where
  total_usage : ℚ
  percpu_usage : Option (List ℚ)

structure CpuStats where
  cpu_usage : CpuUsage
  system_cpu_usage : Option ℚ
  online_cpus : Option ℚ

structure MemoryStats where
  usage : Option ℚ
  limit : Option ℚ

structure DockerStatsJson where
  cpu_stats : CpuStats
  precpu_stats : CpuStats
  memory_stats : MemoryStats

structure StatsRecord where
  cpuPercent : ℚ
  memUsageMB : ℚ
  memLimitMB : ℚ

/-- The quantity `systemDelta` as computed in `_streamStats`:
`(s.cpu_stats.system_cpu_usage ?? 0) - (s.precpu_stats.system_cpu_usage ?? 0)`. -/
def systemDeltaOf (s : DockerStatsJson) : ℚ :=
  s.cpu_stats.system_cpu_usage.getD 0 - s.precpu_stats.system_cpu_usage.getD 0

/-- The record yielded by `_streamStats` for one parsed JSON stats object. -/
def statsRecordOf (s : DockerStatsJson) : StatsRecord :=
  let cpuDelta : ℚ :=
    s.cpu_stats.cpu_usage.total_usage - s.precpu_stats.cpu_usage.total_usage
  let systemDelta := systemDeltaOf s
  let numCpus : ℚ :=
    s.cpu_stats.online_cpus.getD
      (((s.cpu_stats.cpu_usage.percpu_usage).map fun l => (l.length : ℚ)).getD 1)
  let cpuPercent : ℚ :=
    if systemDelta > 0 then cpuDelta / systemDelta * numCpus * 100 else 0
  { cpuPercent := max 0 (min cpuPercent 100)
    memUsageMB := (s.memory_stats.usage.getD 0) / 1024 / 1024
    memLimitMB := (s.memory_stats.limit.getD 0) / 1024 / 1024 }

/-! ## Session ledger (`server_sessions` table, db.ts)

Rows of `server_sessions` and the two prepared statements used by the
start/stop routes:

* `start`: `INSERT INTO server_sessions (server_id, started_at) VALUES (?, ?)`
* `stop`:  `UPDATE server_sessions SET stopped_at = ?, stop_reason = ?
            WHERE server_id = ? AND stopped_at IS NULL`
-/

inductive StopReason
  | user
  | crash
  | replaced
deriving DecidableEq, Repr

structure ServerSession where
  id : Nat
  server_id : String
  started_at : Nat
  stopped_at : Option Nat
  stop_reason : Option StopReason
deriving DecidableEq, Repr

/-- Query `serverSessionQueries.stop.run now reason sid`: closes every open row of
the given server. -/
def sessionStopRun (now : Nat) (reason : StopReason) (sid : String)
    (tbl : List ServerSession) : List ServerSession :=
  tbl.map fun r =>
    if r.server_id = sid ∧ r.stopped_at = none then
      { r with stopped_at := some now, stop_reason := some reason }
    else r

/-- Query `serverSessionQueries.start.run sid now`: inserts a fresh open row
(`nextId` models the AUTOINCREMENT primary key). -/
def sessionStartRun (sid : String) (now : Nat) (nextId : Nat)
    (tbl : List ServerSession) : List ServerSession :=
  tbl ++ [⟨nextId, sid, now, none, none⟩]

/-- The open rows (`stopped_at IS NULL`) of the table. -/
def openRuns (tbl : List ServerSession) : List ServerSession :=
  tbl.filter fun r => r.stopped_at = none

/-! ## Faithful scheduler state machine (routes/servers.ts + docker.ts)

The state tracks the `server_sessions` table, which game container is
*actually* running (`running`, what `getActiveContainer()` observes), the
registered crash watchers (`activeWatchers` keys, docker.ts 50) and the
`intentionalStops` set (docker.ts 51), and the next AUTOINCREMENT id.

Each completed operation of the control plane is one transition, and the
two environment events are transitions of their own, as in the source:

* `startOk id now` — `POST /servers/:id/start`, all engine calls succeed:
  the route queries `getActiveContainer()` and, only when a container is
  actually running, marks it intentional and closes its open run with
  `stop_reason = replaced`; `startGameContainer` stops the old container
  and starts the new one; the route inserts the new open run and registers
  the watcher for `id` (servers.ts 169–235).
* `startFailEarly` — `startGameContainer` fails before the old container
  was stopped (e.g. `ensureNetwork`): the replacement prefix already ran,
  the old container keeps running, no row is inserted, no watcher.
* `startFailLate` — pull / create / start fails after the old container
  was stopped: no container is left running, no row is inserted.
* `stopOk id now` — `POST /servers/:id/stop`: `markIntentionalStop(id)`,
  the container stops only when it is the running one, and the open runs
  of `id` are closed with `stop_reason = user`.
* `stopActiveSome` / `stopActiveNone` — `POST /servers/active/stop`.
* `containerDies id` — the running container stops outside the control
  plane (the crash scenario): the ledger is untouched, the watcher stays
  registered; nothing closes the run until the watcher polls.
* `watcherTick id now` — a registered watcher observes on its 30-second
  poll that the container of `id` is not running (docker.ts 59–73): it
  unregisters itself and, unless the stop was intentional, closes the open
  runs of `id` with `stop_reason = crash`; the intentional mark is cleared.
-/

structure ProgState where
  table : List ServerSession
  running : Option String
  watchers : List String
  intentional : List String
  nextId : Nat
deriving DecidableEq, Repr

def initialProgState : ProgState := ⟨[], none, [], [], 0⟩

/-- Effect of `markIntentionalStop(sid)` (docker.ts 79–86): add to
`intentionalStops`, cancel any registered watcher. -/
def progMarkIntentional (sid : String) (s : ProgState) : ProgState :=
  { s with
      intentional := sid :: s.intentional
      watchers := s.watchers.filter fun w => ¬ w = sid }

/-- Registration effect of `watchContainer(sid, onCrash)` (docker.ts
54–57): cancel any prior watcher for `sid`, clear its intentional mark,
register the new watcher. -/
def progWatch (sid : String) (s : ProgState) : ProgState :=
  { s with
      watchers := sid :: s.watchers.filter fun w => ¬ w = sid
      intentional := s.intentional.filter fun w => ¬ w = sid }

/-- Replacement prefix of the start route (servers.ts 171–175): only when
`getActiveContainer()` finds a running container is it marked intentional
and its open run closed with `replaced`.  A dead container leaves its open
run untouched here. -/
def progCloseActive (now : Nat) (s : ProgState) : ProgState :=
  match s.running with
  | some a =>
    { progMarkIntentional a s with table := sessionStopRun now .replaced a s.table }
  | none => s

/-- Completed successful `POST /servers/:id/start` on the faithful state. -/
def progStartOk (id : String) (now : Nat) (s : ProgState) : ProgState :=
  let s₁ := progCloseActive now s
  progWatch id
    { s₁ with
        table := sessionStartRun id now s₁.nextId s₁.table
        running := some id
        nextId := s₁.nextId + 1 }

/-- Completed `POST /servers/:id/stop` for an existing server id. -/
def progStopOk (id : String) (now : Nat) (s : ProgState) : ProgState :=
  let s₁ := progMarkIntentional id s
  { s₁ with
      table := sessionStopRun now .user id s₁.table
      running := if s₁.running = some id then none else s₁.running }

inductive ProgStep : ProgState → ProgState → Prop
  | startOk (id : String) (now : Nat) (s : ProgState) :
      ProgStep s (progStartOk id now s)
  | startFailEarly (now : Nat) (s : ProgState) :
      ProgStep s (progCloseActive now s)
  | startFailLate (now : Nat) (s : ProgState) :
      ProgStep s { progCloseActive now s with running := none }
  | stopOk (id : String) (now : Nat) (s : ProgState) :
      ProgStep s (progStopOk id now s)
  | stopActiveSome (a : String) (now : Nat) (s : ProgState) (h : s.running = some a) :
      ProgStep s (progStopOk a now s)
  | stopActiveNone (s : ProgState) (h : s.running = none) :
      ProgStep s s
  | containerDies (id : String) (s : ProgState) (h : s.running = some id) :
      ProgStep s { s with running := none }
  | watcherTick (id : String) (now : Nat) (s : ProgState)
      (hw : id ∈ s.watchers) (hr : ¬ s.running = some id) :
      ProgStep s
        { s with
            watchers := s.watchers.filter fun w => ¬ w = id
            table := if id ∈ s.intentional then s.table
              else sessionStopRun now .crash id s.table
            intentional := s.intentional.filter fun w => ¬ w = id }

inductive ProgReachable : ProgState → Prop
  | init : ProgReachable initialProgState
  | step {s t : ProgState} : ProgReachable s → ProgStep s t → ProgReachable t

/-! ## Atomic-crash restriction of the machine

The machine below is the restriction used by the amended claim C1: the
two environment transitions `containerDies` and `watcherTick` are fused
into one atomic `crashFires` transition, so a dead container never
coexists with its still-open run.  Under this restriction the `active`
field plays both roles — the running container and the owner of the only
possibly-open run.  The faithful machine above does not satisfy the
unrestricted invariant: see the counterexample for claim C1. -/

structure PanelState where
  table : List ServerSession
  active : Option String
  nextId : Nat
deriving DecidableEq, Repr

def initialPanelState : PanelState := ⟨[], none, 0⟩

/-- Replacement step of `POST /servers/:id/start` in the restricted
machine: when an active container exists its open run is closed with
reason `replaced`. -/
def closeActiveTable (now : Nat) (s : PanelState) : List ServerSession :=
  match s.active with
  | some a => sessionStopRun now .replaced a s.table
  | none => s.table

inductive AtomicCrashStep : PanelState → PanelState → Prop
  | startOk (id : String) (now : Nat) (s : PanelState) :
      AtomicCrashStep s
        ⟨sessionStartRun id now s.nextId (closeActiveTable now s), some id, s.nextId + 1⟩
  | startFailEarly (now : Nat) (s : PanelState) :
      AtomicCrashStep s ⟨closeActiveTable now s, s.active, s.nextId⟩
  | startFailLate (now : Nat) (s : PanelState) :
      AtomicCrashStep s ⟨closeActiveTable now s, none, s.nextId⟩
  | stopOk (id : String) (now : Nat) (s : PanelState) :
      AtomicCrashStep s
        ⟨sessionStopRun now .user id s.table,
         if s.active = some id then none else s.active, s.nextId⟩
  | stopActiveSome (a : String) (now : Nat) (s : PanelState) (h : s.active = some a) :
      AtomicCrashStep s ⟨sessionStopRun now .user a s.table, none, s.nextId⟩
  | stopActiveNone (s : PanelState) (h : s.active = none) :
      AtomicCrashStep s s
  | crashFires (id : String) (now : Nat) (s : PanelState) (h : s.active = some id) :
      AtomicCrashStep s ⟨sessionStopRun now .crash id s.table, none, s.nextId⟩

inductive AtomicCrashReachable : PanelState → Prop
  | init : AtomicCrashReachable initialPanelState
  | step {s t : PanelState} :
      AtomicCrashReachable s → AtomicCrashStep s t → AtomicCrashReachable t

/-- Inductive invariant of the restricted machine: every open row belongs
to the currently running server (hence there is no open row when nothing
runs). -/
def AtomicCrashInv (s : PanelState) : Prop :=
  (∀ r ∈ s.table, r.stopped_at = none → s.active = some r.server_id) ∧
  (openRuns s.table).length ≤ 1

/-! ## Event trace of `POST /servers/:id/start`

For the temporal claims the handler is embedded as a function producing the
list of *completed* calls, in program order, together with the HTTP status.
The order is read off servers.ts 169–235 and docker.ts 89–175:

route: `getActiveContainer`; when active: `markIntentionalStop(active.name)`
and close its run with `replaced`; then `startGameContainer` (which itself
stops the active container, force-removes the target name, pulls the image,
creates and starts the container); then insert the new run and register the
crash watcher.  Any engine failure is caught and answered with a 500; the
calls after the failing one never run. -/

inductive DockerEvent
  | markIntentional (sid : String)
  | closeRun (sid : String) (reason : StopReason)
  | stopContainer (sid : String)
  | removeContainer (sid : String)
  | pullImage (image : String)
  | createContainer (sid : String)
  | containerStart (sid : String)
  | insertRun (sid : String)
  | registerWatcher (sid : String)
deriving DecidableEq, Repr

inductive StartOutcome
  | ok
  | pullFails
  | createFails
  | startFails
deriving DecidableEq, Repr

/-- Completed engine calls of `startGameContainer` (docker.ts 89–175),
given the currently active game container and the point of failure. -/
def startGameContainerTrace (active : Option String) (id image : String)
    (outcome : StartOutcome) : List DockerEvent :=
  let stopOld : List DockerEvent :=
    match active with
    | some a => [.stopContainer a]
    | none => []
  let pre := stopOld ++ [.removeContainer id]
  match outcome with
  | .pullFails => pre
  | .createFails => pre ++ [.pullImage image]
  | .startFails => pre ++ [.pullImage image, .createContainer id]
  | .ok => pre ++ [.pullImage image, .createContainer id, .containerStart id]

structure StartResponse where
  status : Nat
  events : List DockerEvent
deriving DecidableEq, Repr

/-- Handler `servers.post("/:id/start")` for an authenticated request whose server
row exists (servers.ts 169–235). -/
def startRoute (active : Option String) (id image : String)
    (outcome : StartOutcome) : StartResponse :=
  let pre : List DockerEvent :=
    match active with
    | some a => [.markIntentional a, .closeRun a .replaced]
    | none => []
  let inner := startGameContainerTrace active id image outcome
  match outcome with
  | .ok => ⟨200, pre ++ inner ++ [.insertRun id, .registerWatcher id]⟩
  | _ => ⟨500, pre ++ inner⟩

/-! ## Multiplexed log frame parser (`_streamLogs`, docker.ts 230–252)

Bytes are naturals; the non-TTY loop concatenates incoming chunks into a
buffer and peels complete frames
`[1 B stream type][3 B pad][4 B BE payload length][payload]`, breaking as
soon as the buffer holds less than `8 + payloadLen` bytes.  Each peeled
payload is split on `\n` (byte 10), `trimEnd`ed, and empty lines are
dropped. -/

/-- Read `buf.readUInt32BE(4)`: big-endian 32-bit integer from bytes 4–7.  The
code only calls it when `buf.length ≥ 8`, so the fallback branch is dead. -/
def readUInt32BE4 (buf : List Nat) : Nat :=
  match buf.drop 4 with
  | b0 :: b1 :: b2 :: b3 :: _ => b0 * 16777216 + b1 * 65536 + b2 * 256 + b3
  | _ => 0

/-- The inner `while (buf.length >= 8)` loop peeling complete frames.  The
fuel bounds the number of iterations; each iteration consumes at least 8
bytes, so `buf.length` iterations always suffice. -/
def peelFramesAux : Nat → List Nat → List (List Nat) × List Nat
  | 0, buf => ([], buf)
  | fuel + 1, buf =>
    if 8 ≤ buf.length then
      let payloadLen := readUInt32BE4 buf
      if 8 + payloadLen ≤ buf.length then
        let payload := (buf.drop 8).take payloadLen
        let rest := buf.drop (8 + payloadLen)
        let pr := peelFramesAux fuel rest
        (payload :: pr.1, pr.2)
      else ([], buf)
    else ([], buf)

/-- All complete frames in the buffer, and the unconsumed remainder. -/
def peelFrames (buf : List Nat) : List (List Nat) × List Nat :=
  peelFramesAux buf.length buf

/-- JavaScript `trimEnd` whitespace, restricted to ASCII (tab, LF, VT, FF,
CR, space). -/
def isWhitespaceByte (b : Nat) : Bool :=
  b == 9 || b == 10 || b == 11 || b == 12 || b == 13 || b == 32

/-- Apply `line.trimEnd()` to a byte string. -/
def trimEndBytes (l : List Nat) : List Nat :=
  (l.reverse.dropWhile isWhitespaceByte).reverse

/-- Split `payload.split("\n")`, each line `trimEnd`ed, empties dropped —
the per-frame emission of `_streamLogs`. -/
def extractPayloadLines (payload : List Nat) : List (List Nat) :=
  ((payload.splitOn 10).map trimEndBytes).filter fun l => ¬ l = []

/-- One `for await` iteration of the non-TTY branch: append the chunk to
the carried buffer, peel complete frames, emit their lines. -/
def processLogChunk (buf chunk : List Nat) : List Nat × List (List Nat) :=
  let pr := peelFrames (buf ++ chunk)
  (pr.2, (pr.1.map extractPayloadLines).flatten)

/-- Feed a chunk sequence through the loop, starting from the empty buffer
(`Buffer.alloc(0)`); returns every emitted line in order. -/
def processLogChunks (chunks : List (List Nat)) : List (List Nat) :=
  (chunks.foldl
    (fun acc chunk =>
      let st := processLogChunk acc.1 chunk
      (st.1, acc.2 ++ st.2))
    (([] : List Nat), ([] : List (List Nat)))).2

/-- The lines determined by a complete byte sequence. -/
def logLinesOf (bs : List Nat) : List (List Nat) :=
  (((peelFrames bs).1).map extractPayloadLines).flatten

/-! ## Session history (`serverSessionQueries.history` + route)

`SELECT * FROM server_sessions WHERE server_id = ? ORDER BY started_at DESC
LIMIT 10`, then the handler of `GET /servers/:id/history`
(servers.ts 515–530) maps each row to its JSON shape. -/

/-- Insertion step of the `ORDER BY started_at DESC` sort. -/
def insertDescByStarted (r : ServerSession) : List ServerSession → List ServerSession
  | [] => [r]
  | x :: xs =>
    if x.started_at ≤ r.started_at then r :: x :: xs
    else x :: insertDescByStarted r xs

/-- Sort `ORDER BY started_at DESC` on a row list. -/
def sortDescByStarted (l : List ServerSession) : List ServerSession :=
  l.foldr insertDescByStarted []

/-- Query `serverSessionQueries.history.all(sid)` — note the `LIMIT 10`. -/
def historyQuery (tbl : List ServerSession) (sid : String) : List ServerSession :=
  (sortDescByStarted (tbl.filter fun r => r.server_id = sid)).take 10

structure HistoryRow where
  id : Nat
  started_at : Nat
  stopped_at : Option Nat
  duration_seconds : Option Int
  stop_reason : Option StopReason
deriving DecidableEq, Repr

/-- Response body of `GET /servers/:id/history` for an existing server. -/
def historyHandler (tbl : List ServerSession) (sid : String) : List HistoryRow :=
  (historyQuery tbl sid).map fun s =>
    { id := s.id
      started_at := s.started_at
      stopped_at := s.stopped_at
      duration_seconds := s.stopped_at.map fun t => (t : Int) - (s.started_at : Int)
      stop_reason := s.stop_reason }

/-! ## Backup engine (backup.ts)

Rows of the `backups` table, the queries used by `createBackup` and
`pruneOldBackups`, and both functions.  The environment-dependent inputs
(container status, whether `pause` succeeded, the exit code of the archiver, the
parsed `max_backups_per_server` setting, clock, AUTOINCREMENT id) are
explicit parameters; file-system effects are recorded as events. -/

structure Backup where
  id : Nat
  server_id : String
  filename : String
  size_bytes : Nat
  created_at : Nat
deriving DecidableEq, Repr

/-- Predicate `p.startsWith("/data/")`, expressed on the character sequence of the
path (`String.startsWith` compares the first `6` characters against the
prefix). -/
def startsWithDataPrefix (p : String) : Bool :=
  p.toList.take 6 == "/data/".toList

inductive ContainerStatus
  | running
  | stopped
  | missing
deriving DecidableEq, Repr

/-- Query `backupQueries.count`: `SELECT COUNT(*) FROM backups WHERE server_id = ?`. -/
def backupCount (tbl : List Backup) (sid : String) : Nat :=
  (tbl.filter fun b => b.server_id = sid).length

/-- Strict "is stored earlier" order used to resolve
`ORDER BY created_at ASC LIMIT 1`: SQLite returns ties in rowid order, so
ties on `created_at` are broken by `id`. -/
def olderBackup (a b : Backup) : Bool :=
  a.created_at < b.created_at || (a.created_at == b.created_at && a.id < b.id)

/-- Fold step selecting the row stored earliest. -/
def oldestFold (acc : Option Backup) (b : Backup) : Option Backup :=
  match acc with
  | none => some b
  | some a => if olderBackup b a then some b else some a

/-- Query `backupQueries.oldest`: `SELECT * FROM backups WHERE server_id = ?
ORDER BY created_at ASC LIMIT 1`. -/
def backupOldest (tbl : List Backup) (sid : String) : Option Backup :=
  (tbl.filter fun b => b.server_id = sid).foldl oldestFold none

/-- Query `backupQueries.deleteById`. -/
def deleteBackupRow (tbl : List Backup) (bid : Nat) : List Backup :=
  tbl.filter fun b => ¬ b.id = bid

/-- Fallback `Number(getPanelSetting("max_backups_per_server")) || 5`: `parsed` is
the result of `Number` on the stored text, `none` standing for NaN.  Both
NaN and `0` are falsy, so both fall back to `5`. -/
def effectiveMaxBackups (parsed : Option ℚ) : ℚ :=
  match parsed with
  | none => 5
  | some q => if q = 0 then 5 else q

inductive BackupEvent
  | pause
  | tarCreate (filename : String)
  | unpause
  | insertRow (filename : String)
  | unlinkFile (filename : String)
  | deleteRow (bid : Nat)
deriving DecidableEq, Repr

/-- The `while (count > max)` loop of `pruneOldBackups`, carrying the local
`count` variable exactly as the code does; each removal is
`deleteBackupFile(oldest.id)`, which unlinks the file and deletes the row.
Fuel bounds the iterations; `count + 1` always suffices. -/
def pruneLoop (max : ℚ) (sid : String) :
    Nat → Nat → List Backup → List Backup × List BackupEvent
  | 0, _count, tbl => (tbl, [])
  | fuel + 1, count, tbl =>
    if max < (count : ℚ) then
      match backupOldest tbl sid with
      | none => (tbl, [])
      | some b =>
        let pr := pruneLoop max sid fuel (count - 1) (deleteBackupRow tbl b.id)
        (pr.1, .unlinkFile b.filename :: .deleteRow b.id :: pr.2)
    else (tbl, [])

/-- Function `pruneOldBackups(serverId)` (backup.ts 175–185). -/
def pruneOldBackups (parsed : Option ℚ) (sid : String) (tbl : List Backup) :
    List Backup × List BackupEvent :=
  pruneLoop (effectiveMaxBackups parsed) sid (backupCount tbl sid + 1)
    (backupCount tbl sid) tbl

structure CreateBackupResult where
  result : Except String Backup
  table : List Backup
  events : List BackupEvent
deriving Repr

/-- Function `createBackup(serverId)` (backup.ts 58–133).  `volumes` is the parsed
`server.volumes` mapping (host path, container path); `pauseOk` is whether
`container.pause()` returned without throwing; `tarExit` the archiver
exit code.  Events record the completed effects in program order; the
`finally` block unpauses whenever the pause succeeded, before the tar error
propagates. -/
def createBackup (volumes : List (String × String)) (status : ContainerStatus)
    (pauseOk : Bool) (tarExit : Nat) (parsedMax : Option ℚ)
    (sid filename : String) (sizeBytes nextId now : Nat)
    (tbl : List Backup) : CreateBackupResult :=
  let relativeDirs := (volumes.map Prod.fst).filter fun p => startsWithDataPrefix p
  if relativeDirs = [] then
    ⟨.error "No /data/ volumes configured for this server", tbl, []⟩
  else
    let paused := status = ContainerStatus.running ∧ pauseOk = true
    let pauseEvs : List BackupEvent := if paused then [.pause] else []
    let unpauseEvs : List BackupEvent := if paused then [.unpause] else []
    if tarExit ≠ 0 then
      ⟨.error ("tar failed (exit " ++ toString tarExit ++ ")"), tbl,
        pauseEvs ++ [.tarCreate filename] ++ unpauseEvs⟩
    else
      let row : Backup := ⟨nextId, sid, filename, sizeBytes, now⟩
      let tbl₁ := tbl ++ [row]
      let pruned := pruneLoop (effectiveMaxBackups parsedMax) sid
        (backupCount tbl₁ sid + 1) (backupCount tbl₁ sid) tbl₁
      ⟨.ok row, pruned.1,
        pauseEvs ++ [.tarCreate filename] ++ unpauseEvs
          ++ [.insertRow filename] ++ pruned.2⟩

/-! ## Server rows and the delete / config routes (servers.ts, db.ts)

`serverQueries.update` is
`UPDATE servers SET docker_image = ?, env_vars = ? WHERE id = ?`;
`serverQueries.updateTheme` sets `banner_path` and `accent_color`;
`serverQueries.deleteById` and `serverSessionQueries.deleteByServerId`
delete by key.  `env_vars` and `volumes` are JSON text columns. -/

structure ServerRow where
  id : String
  name : String
  game_type : String
  docker_image : String
  port : Nat
  env_vars : String
  volumes : String
  created_at : Nat
  banner_path : Option String
  accent_color : Option String
deriving DecidableEq, Repr

def serverUpdateRun (image envJson sid : String) (tbl : List ServerRow) :
    List ServerRow :=
  tbl.map fun r =>
    if r.id = sid then { r with docker_image := image, env_vars := envJson } else r

def serverUpdateThemeRun (banner accent : Option String) (sid : String)
    (tbl : List ServerRow) : List ServerRow :=
  tbl.map fun r =>
    if r.id = sid then { r with banner_path := banner, accent_color := accent } else r

def serverDeleteByIdRun (sid : String) (tbl : List ServerRow) : List ServerRow :=
  tbl.filter fun r => ¬ r.id = sid

def sessionDeleteByServerIdRun (sid : String) (tbl : List ServerSession) :
    List ServerSession :=
  tbl.filter fun r => ¬ r.server_id = sid

structure DeleteServerResult where
  status : Nat
  servers : List ServerRow
  sessions : List ServerSession
deriving DecidableEq, Repr

/-- Handler `servers.delete("/:id")` (servers.ts 114–128): 404 when the row is
missing, 400 when the container is running, otherwise delete the run rows
and then the server row. -/
def deleteServerRoute (servers : List ServerRow) (sessions : List ServerSession)
    (status : ContainerStatus) (sid : String) : DeleteServerResult :=
  match servers.find? (fun r => r.id = sid) with
  | none => ⟨404, servers, sessions⟩
  | some _ =>
    if status = ContainerStatus.running then ⟨400, servers, sessions⟩
    else ⟨200, serverDeleteByIdRun sid servers, sessionDeleteByServerIdRun sid sessions⟩

structure PutConfigResult where
  status : Nat
  servers : List ServerRow
deriving DecidableEq, Repr

/-- Handler `servers.put("/:id/config")` (servers.ts 390–409): 404 when the row is
missing, otherwise run `update` and, when the body carries `accent_color`
(`none` models an absent field), `updateTheme`.  The handler performs no
container-status check. -/
def putConfigRoute (servers : List ServerRow) (sid : String)
    (docker_image envJson : String) (accent_color : Option (Option String)) :
    PutConfigResult :=
  match servers.find? (fun r => r.id = sid) with
  | none => ⟨404, servers⟩
  | some server =>
    let servers₁ := serverUpdateRun docker_image envJson sid servers
    let servers₂ :=
      match accent_color with
      | some ac => serverUpdateThemeRun server.banner_path ac sid servers₁
      | none => servers₁
    ⟨200, servers₂⟩

/-! ## Supporting lemmas -/

lemma openRuns_append (l₁ l₂ : List ServerSession) :
    openRuns (l₁ ++ l₂) = openRuns l₁ ++ openRuns l₂ := by
  simp [openRuns, List.filter_append]

/-- Closing rows never creates open rows: the `stop` update can only shrink
the set of open runs. -/
lemma openRuns_sessionStopRun_length_le (now : Nat) (reason : StopReason)
    (sid : String) (tbl : List ServerSession) :
    (openRuns (sessionStopRun now reason sid tbl)).length ≤ (openRuns tbl).length := by
  induction tbl with
  | nil => simp [sessionStopRun, openRuns]
  | cons r tl ih =>
    simp only [sessionStopRun, openRuns, List.map_cons, List.filter_cons] at ih ⊢
    by_cases hc : r.server_id = sid ∧ r.stopped_at = none
    · rw [if_pos hc, if_neg (by simp), if_pos (by simp [hc.2])]
      simp only [List.length_cons]
      exact Nat.le_succ_of_le ih
    · rw [if_neg hc]
      by_cases ho : r.stopped_at = none
      · rw [if_pos (by simpa using ho), if_pos (by simpa using ho)]
        simp only [List.length_cons]
        exact Nat.succ_le_succ ih
      · rw [if_neg (by simpa using ho), if_neg (by simpa using ho)]
        exact ih

lemma mem_sessionStopRun {r : ServerSession} {now : Nat} {reason : StopReason}
    {sid : String} {tbl : List ServerSession} (h : r ∈ sessionStopRun now reason sid tbl) :
    r.stopped_at = none → (∃ r₀ ∈ tbl, r₀.stopped_at = none ∧ r₀.server_id = r.server_id ∧
      ¬ r₀.server_id = sid) := by
  intro hopen
  rcases List.mem_map.mp h with ⟨r₀, hr₀, heq⟩
  by_cases hc : r₀.server_id = sid ∧ r₀.stopped_at = none
  · rw [if_pos hc] at heq
    exfalso
    rw [← heq] at hopen
    simp at hopen
  · rw [if_neg hc] at heq
    subst heq
    push_neg at hc
    by_cases hs : r₀.server_id = sid
    · exact absurd hopen (hc hs)
    · exact ⟨r₀, hr₀, hopen, rfl, hs⟩

lemma closeActiveTable_no_open (now : Nat) (s : PanelState) (hinv : AtomicCrashInv s) :
    ∀ r ∈ closeActiveTable now s, r.stopped_at ≠ none := by
  intro r hr hopen
  unfold closeActiveTable at hr
  cases ha : s.active with
  | none =>
    rw [ha] at hr
    exact absurd (hinv.1 r hr hopen) (by simp [ha])
  | some a =>
    rw [ha] at hr
    rcases mem_sessionStopRun hr hopen with ⟨r₀, hr₀, ho₀, hs₀, hne⟩
    have := hinv.1 r₀ hr₀ ho₀
    rw [ha] at this
    exact hne (by injection this with h; exact h.symm)

lemma openRuns_nil_of_no_open {tbl : List ServerSession}
    (h : ∀ r ∈ tbl, r.stopped_at ≠ none) : openRuns tbl = [] := by
  induction tbl with
  | nil => rfl
  | cons r tl ih =>
    have hr := h r (by simp)
    simp only [openRuns, List.filter_cons]
    rw [if_neg (by simpa using hr)]
    exact ih fun x hx => h x (by simp [hx])

lemma atomicCrashInv_preserved {s t : PanelState} (hinv : AtomicCrashInv s)
    (hstep : AtomicCrashStep s t) : AtomicCrashInv t := by
  cases hstep with
  | startOk id now s =>
    constructor
    · intro r hr hopen
      unfold sessionStartRun at hr
      rcases List.mem_append.mp hr with hmem | hmem
      · exact absurd hopen (closeActiveTable_no_open now s hinv r hmem)
      · simp only [List.mem_singleton] at hmem
        subst hmem
        rfl
    · show (openRuns (closeActiveTable now s ++ [⟨s.nextId, id, now, none, none⟩])).length ≤ 1
      rw [openRuns_append, openRuns_nil_of_no_open (closeActiveTable_no_open now s hinv)]
      simp [openRuns]
  | startFailEarly now s =>
    constructor
    · intro r hr hopen
      exact absurd hopen (closeActiveTable_no_open now s hinv r hr)
    · rw [openRuns_nil_of_no_open (closeActiveTable_no_open now s hinv)]
      simp
  | startFailLate now s =>
    constructor
    · intro r hr hopen
      exact absurd hopen (closeActiveTable_no_open now s hinv r hr)
    · rw [openRuns_nil_of_no_open (closeActiveTable_no_open now s hinv)]
      simp
  | stopOk id now s =>
    constructor
    · intro r hr hopen
      rcases mem_sessionStopRun hr hopen with ⟨r₀, hr₀, ho₀, hs₀, hne⟩
      have hact := hinv.1 r₀ hr₀ ho₀
      have hnotid : ¬ s.active = some id := by
        intro hcontra
        rw [hact] at hcontra
        injection hcontra with hh
        exact hne hh
      rw [if_neg hnotid, hact, hs₀]
    · exact le_trans (openRuns_sessionStopRun_length_le now .user id s.table) hinv.2
  | stopActiveSome a now s h =>
    constructor
    · intro r hr hopen
      exfalso
      rcases mem_sessionStopRun hr hopen with ⟨r₀, hr₀, ho₀, hs₀, hne⟩
      have hact := hinv.1 r₀ hr₀ ho₀
      rw [h] at hact
      injection hact with hh
      exact hne hh.symm
    · exact le_trans (openRuns_sessionStopRun_length_le now .user a s.table) hinv.2
  | stopActiveNone s h => exact hinv
  | crashFires id now s h =>
    constructor
    · intro r hr hopen
      exfalso
      rcases mem_sessionStopRun hr hopen with ⟨r₀, hr₀, ho₀, hs₀, hne⟩
      have hact := hinv.1 r₀ hr₀ ho₀
      rw [h] at hact
      injection hact with hh
      exact hne hh.symm
    · exact le_trans (openRuns_sessionStopRun_length_le now .crash id s.table) hinv.2

lemma atomicCrashInv_of_reachable {s : PanelState} (h : AtomicCrashReachable s) :
    AtomicCrashInv s := by
  induction h with
  | init =>
    constructor
    · intro r hr
      simp [initialPanelState] at hr
    · simp [initialPanelState, openRuns]
  | step _ hstep ih => exact atomicCrashInv_preserved ih hstep

/-! ### Frame parser lemmas -/

lemma peelFramesAux_nil (fuel : Nat) : peelFramesAux fuel [] = ([], []) := by
  cases fuel with
  | zero => rfl
  | succ n => simp [peelFramesAux]

lemma peelFramesAux_incomplete (fuel : Nat) (buf : List Nat)
    (h : buf.length < 8 + readUInt32BE4 buf) :
    peelFramesAux fuel buf = ([], buf) := by
  cases fuel with
  | zero => rfl
  | succ n =>
    simp only [peelFramesAux]
    by_cases h8 : 8 ≤ buf.length
    · rw [if_pos h8, if_neg (by omega)]
    · rw [if_neg h8]

/-- A frame is only decoded once all `8 + payloadLen` bytes are present:
on a buffer shorter than that, the parser emits nothing and keeps every
byte. -/
lemma peelFrames_incomplete (buf : List Nat)
    (h : buf.length < 8 + readUInt32BE4 buf) : peelFrames buf = ([], buf) :=
  peelFramesAux_incomplete _ _ h

lemma peelFramesAux_fuel (f₁ f₂ : Nat) (buf : List Nat)
    (h₁ : buf.length ≤ f₁) (h₂ : buf.length ≤ f₂) :
    peelFramesAux f₁ buf = peelFramesAux f₂ buf := by
  induction f₁ generalizing f₂ buf with
  | zero =>
    have : buf = [] := List.length_eq_zero.mp (Nat.le_zero.mp h₁)
    subst this
    rw [peelFramesAux_nil, peelFramesAux_nil]
  | succ n ih =>
    cases f₂ with
    | zero =>
      have : buf = [] := List.length_eq_zero.mp (Nat.le_zero.mp h₂)
      subst this
      rw [peelFramesAux_nil, peelFramesAux_nil]
    | succ m =>
      simp only [peelFramesAux]
      by_cases h8 : 8 ≤ buf.length
      · by_cases hc : 8 + readUInt32BE4 buf ≤ buf.length
        · have hl₁ : (buf.drop (8 + readUInt32BE4 buf)).length ≤ n := by
            rw [List.length_drop]; omega
          have hl₂ : (buf.drop (8 + readUInt32BE4 buf)).length ≤ m := by
            rw [List.length_drop]; omega
          rw [if_pos h8, if_pos hc, if_pos h8, if_pos hc, ih m _ hl₁ hl₂]
        · rw [if_pos h8, if_neg hc, if_pos h8, if_neg hc]
      · rw [if_neg h8, if_neg h8]

/-- Unfolding step of `peelFrames` when a complete frame is available. -/
lemma peelFrames_step (buf : List Nat) (h8 : 8 ≤ buf.length)
    (hc : 8 + readUInt32BE4 buf ≤ buf.length) :
    peelFrames buf
      = ((buf.drop 8).take (readUInt32BE4 buf)
           :: (peelFrames (buf.drop (8 + readUInt32BE4 buf))).1,
         (peelFrames (buf.drop (8 + readUInt32BE4 buf))).2) := by
  unfold peelFrames
  rw [show buf.length = (buf.length - 1) + 1 from by omega]
  simp only [peelFramesAux]
  rw [if_pos h8, if_pos hc]
  rw [peelFramesAux_fuel (buf.length - 1)
    ((buf.drop (8 + readUInt32BE4 buf)).length) (buf.drop (8 + readUInt32BE4 buf))
    (by rw [List.length_drop]; omega) le_rfl]

lemma readUInt32BE4_append (l c : List Nat) (h : 8 ≤ l.length) :
    readUInt32BE4 (l ++ c) = readUInt32BE4 l := by
  rcases l with _ | ⟨b0, _ | ⟨b1, _ | ⟨b2, _ | ⟨b3, _ | ⟨b4, _ | ⟨b5, _ | ⟨b6, _ | ⟨b7, t⟩⟩⟩⟩⟩⟩⟩⟩
  all_goals first | rfl | simp at h

/-- Feeding extra bytes after a buffer peels the same frames first and then
continues on the remainder followed by the new bytes. -/
lemma peelFrames_append_aux (fuel : Nat) :
    ∀ buf c : List Nat, buf.length ≤ fuel →
      peelFrames (buf ++ c)
        = ((peelFrames buf).1 ++ (peelFrames ((peelFrames buf).2 ++ c)).1,
           (peelFrames ((peelFrames buf).2 ++ c)).2) := by
  induction fuel with
  | zero =>
    intro buf c h
    have : buf = [] := List.length_eq_zero.mp (Nat.le_zero.mp h)
    subst this
    simp [peelFrames, peelFramesAux]
  | succ n ih =>
    intro buf c h
    by_cases h8 : 8 ≤ buf.length
    · by_cases hc : 8 + readUInt32BE4 buf ≤ buf.length
      · have hlen8 : 8 ≤ (buf ++ c).length := by
          rw [List.length_append]; omega
        have hu : readUInt32BE4 (buf ++ c) = readUInt32BE4 buf :=
          readUInt32BE4_append buf c h8
        have hcc : 8 + readUInt32BE4 (buf ++ c) ≤ (buf ++ c).length := by
          rw [hu, List.length_append]; omega
        have hrest : (buf.drop (8 + readUInt32BE4 buf)).length ≤ n := by
          rw [List.length_drop]; omega
        rw [peelFrames_step (buf ++ c) hlen8 hcc, hu,
          peelFrames_step buf h8 hc,
          List.drop_append_of_le_length h8,
          List.drop_append_of_le_length hc,
          List.take_append_of_le_length (by rw [List.length_drop]; omega),
          ih _ c hrest]
        simp
      · have hb : peelFrames buf = ([], buf) :=
          peelFrames_incomplete buf (by omega)
        rw [hb]
        simp
    · have hb : peelFrames buf = ([], buf) :=
        peelFrames_incomplete buf (by omega)
      rw [hb]
      simp

lemma peelFrames_append (buf c : List Nat) :
    peelFrames (buf ++ c)
      = ((peelFrames buf).1 ++ (peelFrames ((peelFrames buf).2 ++ c)).1,
         (peelFrames ((peelFrames buf).2 ++ c)).2) :=
  peelFrames_append_aux buf.length buf c le_rfl

/-- The remainder the parser keeps is itself unpeelable. -/
lemma peelFrames_rest_aux (fuel : Nat) :
    ∀ buf : List Nat, buf.length ≤ fuel →
      peelFrames (peelFramesAux fuel buf).2 = ([], (peelFramesAux fuel buf).2) := by
  induction fuel with
  | zero =>
    intro buf h
    have : buf = [] := List.length_eq_zero.mp (Nat.le_zero.mp h)
    subst this
    simp [peelFramesAux, peelFrames]
  | succ n ih =>
    intro buf h
    by_cases h8 : 8 ≤ buf.length
    · by_cases hc : 8 + readUInt32BE4 buf ≤ buf.length
      · simp only [peelFramesAux]
        rw [if_pos h8, if_pos hc]
        exact ih _ (by rw [List.length_drop]; omega)
      · simp only [peelFramesAux]
        rw [if_pos h8, if_neg hc]
        exact peelFrames_incomplete buf (by omega)
    · simp only [peelFramesAux]
      rw [if_neg h8]
      exact peelFrames_incomplete buf (by omega)

lemma peelFrames_rest (buf : List Nat) :
    peelFrames (peelFrames buf).2 = ([], (peelFrames buf).2) :=
  peelFrames_rest_aux buf.length buf le_rfl

lemma foldl_logChunks (chunks : List (List Nat)) :
    ∀ (buf : List Nat) (acc : List (List Nat)), peelFrames buf = ([], buf) →
      chunks.foldl
        (fun a chunk =>
          let st := processLogChunk a.1 chunk
          (st.1, a.2 ++ st.2)) (buf, acc)
        = ((peelFrames (buf ++ chunks.flatten)).2,
           acc ++ logLinesOf (buf ++ chunks.flatten)) := by
  induction chunks with
  | nil =>
    intro buf acc hbuf
    simp [logLinesOf, hbuf]
  | cons ch chs ih =>
    intro buf acc hbuf
    have hmain := ih ((peelFrames (buf ++ ch)).2)
      (acc ++ (((peelFrames (buf ++ ch)).1).map extractPayloadLines).flatten)
      (peelFrames_rest (buf ++ ch))
    have hstep :
        (let st := processLogChunk (buf, acc).1 ch
         (st.1, (buf, acc).2 ++ st.2))
          = ((peelFrames (buf ++ ch)).2,
             acc ++ (((peelFrames (buf ++ ch)).1).map extractPayloadLines).flatten) := rfl
    rw [List.foldl_cons, hstep, hmain]
    have hflat : (ch :: chs).flatten = ch ++ chs.flatten := rfl
    have hassoc : buf ++ (ch ++ chs.flatten) = (buf ++ ch) ++ chs.flatten :=
      (List.append_assoc buf ch chs.flatten).symm
    simp only [logLinesOf]
    rw [hflat, hassoc, peelFrames_append (buf ++ ch) chs.flatten]
    simp [List.append_assoc]

/-- Every chunking of the same byte stream emits the lines of the maximal
frame-complete prefix of the stream. -/
lemma processLogChunks_eq (chunks : List (List Nat)) :
    processLogChunks chunks = logLinesOf chunks.flatten := by
  unfold processLogChunks
  rw [foldl_logChunks chunks [] [] rfl]
  simp

/-! ### Backup engine lemmas -/

lemma oldestFold_ne_none (acc : Option Backup) (b : Backup) :
    oldestFold acc b ≠ none := by
  cases acc with
  | none => simp [oldestFold]
  | some a =>
    simp only [oldestFold]
    split <;> simp

lemma foldl_oldestFold_none {l : List Backup} :
    ∀ {acc : Option Backup}, l.foldl oldestFold acc = none → acc = none ∧ l = [] := by
  induction l with
  | nil => intro acc h; exact ⟨h, rfl⟩
  | cons x xs ih =>
    intro acc h
    rw [List.foldl_cons] at h
    rcases ih h with ⟨hstep, _⟩
    exact absurd hstep (oldestFold_ne_none acc x)

lemma foldl_oldestFold_mem {l : List Backup} :
    ∀ {acc : Option Backup} {b : Backup}, l.foldl oldestFold acc = some b →
      acc = some b ∨ b ∈ l := by
  induction l with
  | nil => intro acc b h; exact Or.inl h
  | cons x xs ih =>
    intro acc b h
    rw [List.foldl_cons] at h
    rcases ih h with hstep | hmem
    · cases acc with
      | none =>
        simp only [oldestFold] at hstep
        injection hstep with hxb
        exact Or.inr (by rw [← hxb]; exact List.mem_cons_self x xs)
      | some a =>
        simp only [oldestFold] at hstep
        split at hstep
        · injection hstep with hxb
          exact Or.inr (by rw [← hxb]; exact List.mem_cons_self x xs)
        · exact Or.inl hstep
    · exact Or.inr (List.mem_cons_of_mem x hmem)

lemma olderBackup_le {a b : Backup} (h : olderBackup a b = true) :
    a.created_at ≤ b.created_at := by
  simp only [olderBackup, Bool.or_eq_true, Bool.and_eq_true, decide_eq_true_eq,
    beq_iff_eq] at h
  rcases h with h | ⟨h, _⟩
  · exact le_of_lt h
  · exact le_of_eq h

lemma olderBackup_false_le {a b : Backup} (h : olderBackup a b = false) :
    b.created_at ≤ a.created_at := by
  simp only [olderBackup, Bool.or_eq_false_iff, Bool.and_eq_false_iff,
    decide_eq_false_iff_not] at h
  exact Nat.le_of_not_lt h.1

lemma foldl_oldestFold_min {l : List Backup} :
    ∀ {acc : Option Backup} {b : Backup}, l.foldl oldestFold acc = some b →
      (∀ a, acc = some a → b.created_at ≤ a.created_at) ∧
      (∀ x ∈ l, b.created_at ≤ x.created_at) := by
  induction l with
  | nil =>
    intro acc b h
    refine ⟨?_, by simp⟩
    intro a ha
    rw [ha] at h
    injection h with h
    rw [h]
  | cons x xs ih =>
    intro acc b h
    rw [List.foldl_cons] at h
    have IH := ih h
    constructor
    · intro a ha
      subst ha
      by_cases hne : olderBackup x a = true
      · have hbx : b.created_at ≤ x.created_at :=
          IH.1 x (by simp [oldestFold, hne])
        exact le_trans hbx (olderBackup_le hne)
      · exact IH.1 a (by simp [oldestFold, hne])
    · intro y hy
      rcases List.mem_cons.mp hy with rfl | hmem
      · cases acc with
        | none => exact IH.1 y rfl
        | some a =>
          by_cases hne : olderBackup y a = true
          · exact IH.1 y (by simp [oldestFold, hne])
          · have hba : b.created_at ≤ a.created_at :=
              IH.1 a (by simp [oldestFold, hne])
            have hay : a.created_at ≤ y.created_at :=
              olderBackup_false_le (by simpa using hne)
            exact le_trans hba hay
      · exact IH.2 y hmem

lemma backupOldest_none {tbl : List Backup} {sid : String}
    (h : backupOldest tbl sid = none) : backupCount tbl sid = 0 := by
  unfold backupOldest at h
  rcases foldl_oldestFold_none h with ⟨_, hl⟩
  unfold backupCount
  rw [hl]
  rfl

lemma backupOldest_mem {tbl : List Backup} {sid : String} {b : Backup}
    (h : backupOldest tbl sid = some b) : b ∈ tbl ∧ b.server_id = sid := by
  unfold backupOldest at h
  rcases foldl_oldestFold_mem h with hacc | hmem
  · simp at hacc
  · have hm := List.mem_filter.mp hmem
    exact ⟨hm.1, by simpa using hm.2⟩

lemma backupOldest_min {tbl : List Backup} {sid : String} {b : Backup}
    (h : backupOldest tbl sid = some b) :
    ∀ x ∈ tbl, x.server_id = sid → b.created_at ≤ x.created_at := by
  intro x hx hsid
  unfold backupOldest at h
  exact (foldl_oldestFold_min h).2 x (List.mem_filter.mpr ⟨hx, by simpa using hsid⟩)

lemma deleteBackupRow_cons (x : Backup) (xs : List Backup) (bid : Nat) :
    deleteBackupRow (x :: xs) bid
      = if x.id = bid then deleteBackupRow xs bid else x :: deleteBackupRow xs bid := by
  by_cases h : x.id = bid
  · simp [deleteBackupRow, List.filter_cons, h]
  · simp [deleteBackupRow, List.filter_cons, h]

lemma backupCount_cons (x : Backup) (xs : List Backup) (sid : String) :
    backupCount (x :: xs) sid
      = (if x.server_id = sid then 1 else 0) + backupCount xs sid := by
  by_cases h : x.server_id = sid
  · simp [backupCount, List.filter_cons, h, Nat.add_comm]
  · simp [backupCount, List.filter_cons, h]

lemma eq_of_mem_backup_id {tbl : List Backup} (hnd : (tbl.map Backup.id).Nodup)
    {a b : Backup} (ha : a ∈ tbl) (hb : b ∈ tbl) (hid : a.id = b.id) : a = b :=
  List.inj_on_of_nodup_map hnd ha hb hid

lemma deleteBackupRow_nodup {tbl : List Backup} {bid : Nat}
    (h : (tbl.map Backup.id).Nodup) :
    ((deleteBackupRow tbl bid).map Backup.id).Nodup :=
  List.Nodup.sublist ((List.filter_sublist tbl).map Backup.id) h

lemma mem_deleteBackupRow_of_ne {tbl : List Backup} {bid : Nat} {b : Backup}
    (hb : b ∈ tbl) (hne : ¬ b.id = bid) : b ∈ deleteBackupRow tbl bid :=
  List.mem_filter.mpr ⟨hb, by simpa using hne⟩

lemma backupCount_deleteBackupRow {tbl : List Backup} {b₀ : Backup} {sid : String}
    (hmem : b₀ ∈ tbl) (hsid : b₀.server_id = sid)
    (hnd : (tbl.map Backup.id).Nodup) :
    backupCount (deleteBackupRow tbl b₀.id) sid + 1 = backupCount tbl sid := by
  induction tbl with
  | nil => cases hmem
  | cons x xs ih =>
    have hnd' : (xs.map Backup.id).Nodup := (List.nodup_cons.mp hnd).2
    have hxnot : x.id ∉ xs.map Backup.id := (List.nodup_cons.mp hnd).1
    rcases List.mem_cons.mp hmem with rfl | hmem'
    · have hdel : deleteBackupRow xs b₀.id = xs := by
        unfold deleteBackupRow
        rw [List.filter_eq_self]
        intro a ha
        have hmap : a.id ∈ xs.map Backup.id := List.mem_map_of_mem _ ha
        simp only [decide_eq_true_eq]
        intro hC
        exact hxnot (hC ▸ hmap)
      rw [deleteBackupRow_cons, if_pos rfl, hdel, backupCount_cons, if_pos hsid]
      omega
    · have hbid : b₀.id ∈ xs.map Backup.id := List.mem_map_of_mem _ hmem'
      have hxid : ¬ x.id = b₀.id := fun hC => hxnot (hC ▸ hbid)
      rw [deleteBackupRow_cons, if_neg hxid, backupCount_cons, backupCount_cons]
      have := ih hmem' hnd'
      by_cases hs : x.server_id = sid
      · omega
      · omega

lemma pruneLoop_subset (max : ℚ) (sid : String) :
    ∀ (fuel count : Nat) (tbl : List Backup) (b : Backup),
      b ∈ (pruneLoop max sid fuel count tbl).1 → b ∈ tbl := by
  intro fuel
  induction fuel with
  | zero => intro count tbl b hb; exact hb
  | succ n ih =>
    intro count tbl b hb
    simp only [pruneLoop] at hb
    by_cases hcond : max < (count : ℚ)
    · rw [if_pos hcond] at hb
      cases ho : backupOldest tbl sid with
      | none => rw [ho] at hb; exact hb
      | some b₀ =>
        rw [ho] at hb
        exact (List.mem_filter.mp (ih (count - 1) (deleteBackupRow tbl b₀.id) b hb)).1
    · rw [if_neg hcond] at hb; exact hb

/-- Rows the prune loop removes are `server_id = sid` rows, each unlinked
from disk, and each no younger than any surviving row of that server. -/
lemma pruneLoop_removed_spec (max : ℚ) (sid : String) :
    ∀ (fuel count : Nat) (tbl : List Backup), (tbl.map Backup.id).Nodup →
      ∀ b ∈ tbl, b ∉ (pruneLoop max sid fuel count tbl).1 →
        b.server_id = sid ∧
        BackupEvent.unlinkFile b.filename ∈ (pruneLoop max sid fuel count tbl).2 ∧
        ∀ b' ∈ (pruneLoop max sid fuel count tbl).1, b'.server_id = sid →
          b.created_at ≤ b'.created_at := by
  intro fuel
  induction fuel with
  | zero => intro count tbl _ b hb hnb; exact absurd hb hnb
  | succ n ih =>
    intro count tbl hnd b hb hnb
    simp only [pruneLoop] at hnb ⊢
    by_cases hcond : max < (count : ℚ)
    · rw [if_pos hcond] at hnb ⊢
      cases ho : backupOldest tbl sid with
      | none =>
        rw [ho] at hnb
        exact absurd hb hnb
      | some b₀ =>
        rw [ho] at hnb
        obtain ⟨hb₀mem, hb₀sid⟩ := backupOldest_mem ho
        have hnd' := @deleteBackupRow_nodup tbl b₀.id hnd
        by_cases hdel : b ∈ deleteBackupRow tbl b₀.id
        · have hrec := ih (count - 1) (deleteBackupRow tbl b₀.id) hnd' b hdel hnb
          exact ⟨hrec.1,
            List.mem_cons_of_mem _ (List.mem_cons_of_mem _ hrec.2.1),
            hrec.2.2⟩
        · have hbid : b.id = b₀.id := by
            by_contra hC
            exact hdel (mem_deleteBackupRow_of_ne hb hC)
          have hbb₀ : b = b₀ := eq_of_mem_backup_id hnd hb hb₀mem hbid
          refine ⟨hbb₀ ▸ hb₀sid, hbb₀ ▸ List.mem_cons_self _ _, ?_⟩
          intro b' hb' hb'sid
          have hb'tbl : b' ∈ tbl :=
            (List.mem_filter.mp
              (pruneLoop_subset max sid n (count - 1) (deleteBackupRow tbl b₀.id) b' hb')).1
          exact hbb₀ ▸ backupOldest_min ho b' hb'tbl hb'sid
    · rw [if_neg hcond] at hnb ⊢
      exact absurd hb hnb

/-- After the loop, the per-server count is within a nonnegative limit. -/
lemma pruneLoop_count_le (max : ℚ) (hmax : 0 ≤ max) (sid : String) :
    ∀ (fuel count : Nat) (tbl : List Backup), (tbl.map Backup.id).Nodup →
      count = backupCount tbl sid → count + 1 ≤ fuel →
      (backupCount (pruneLoop max sid fuel count tbl).1 sid : ℚ) ≤ max := by
  intro fuel
  induction fuel with
  | zero => intro count tbl _ _ hf; omega
  | succ n ih =>
    intro count tbl hnd hcnt hf
    simp only [pruneLoop]
    by_cases hcond : max < (count : ℚ)
    · rw [if_pos hcond]
      cases ho : backupOldest tbl sid with
      | none =>
        have h0 : backupCount tbl sid = 0 := backupOldest_none ho
        rw [hcnt, h0] at hcond
        norm_num at hcond
        exact absurd hcond (not_lt.mpr hmax)
      | some b₀ =>
        obtain ⟨hb₀mem, hb₀sid⟩ := backupOldest_mem ho
        have hnd' := @deleteBackupRow_nodup tbl b₀.id hnd
        have hcnt' : backupCount (deleteBackupRow tbl b₀.id) sid + 1 = backupCount tbl sid :=
          backupCount_deleteBackupRow hb₀mem hb₀sid hnd
        exact ih (count - 1) (deleteBackupRow tbl b₀.id) hnd' (by omega) (by omega)
    · rw [if_neg hcond]
      have hle := not_lt.mp hcond
      rw [hcnt] at hle
      exact hle

/-- With a natural limit `m` the loop keeps exactly `min count m` rows of
the server. -/
lemma pruneLoop_count_min (m : Nat) (sid : String) :
    ∀ (fuel count : Nat) (tbl : List Backup), (tbl.map Backup.id).Nodup →
      count = backupCount tbl sid → count + 1 ≤ fuel →
      backupCount (pruneLoop (m : ℚ) sid fuel count tbl).1 sid
        = min (backupCount tbl sid) m := by
  intro fuel
  induction fuel with
  | zero => intro count tbl _ _ hf; omega
  | succ n ih =>
    intro count tbl hnd hcnt hf
    simp only [pruneLoop]
    by_cases hcond : (m : ℚ) < (count : ℚ)
    · have hmlt : m < count := by exact_mod_cast hcond
      rw [if_pos hcond]
      cases ho : backupOldest tbl sid with
      | none =>
        have h0 : backupCount tbl sid = 0 := backupOldest_none ho
        show backupCount tbl sid = min (backupCount tbl sid) m
        omega
      | some b₀ =>
        obtain ⟨hb₀mem, hb₀sid⟩ := backupOldest_mem ho
        have hnd' := @deleteBackupRow_nodup tbl b₀.id hnd
        have hcnt' : backupCount (deleteBackupRow tbl b₀.id) sid + 1 = backupCount tbl sid :=
          backupCount_deleteBackupRow hb₀mem hb₀sid hnd
        have hrec := ih (count - 1) (deleteBackupRow tbl b₀.id) hnd' (by omega) (by omega)
        show backupCount
            (pruneLoop (m : ℚ) sid n (count - 1) (deleteBackupRow tbl b₀.id)).1 sid
          = min (backupCount tbl sid) m
        rw [hrec]
        omega
    · rw [if_neg hcond]
      have hle : ¬ m < count := fun hC => hcond (by exact_mod_cast hC)
      show backupCount tbl sid = min (backupCount tbl sid) m
      omega

/-! ### History sort lemmas -/

lemma insertDescByStarted_perm (r : ServerSession) (l : List ServerSession) :
    (insertDescByStarted r l).Perm (r :: l) := by
  induction l with
  | nil => exact List.Perm.refl _
  | cons x xs ih =>
    simp only [insertDescByStarted]
    by_cases h : x.started_at ≤ r.started_at
    · rw [if_pos h]
    · rw [if_neg h]
      exact (List.Perm.cons x ih).trans (List.Perm.swap r x xs)

lemma sortDescByStarted_perm (l : List ServerSession) :
    (sortDescByStarted l).Perm l := by
  induction l with
  | nil => exact List.Perm.refl _
  | cons x xs ih =>
    exact (insertDescByStarted_perm x (sortDescByStarted xs)).trans (List.Perm.cons x ih)

lemma insertDescByStarted_sorted (r : ServerSession) (l : List ServerSession)
    (h : l.Pairwise fun a b => b.started_at ≤ a.started_at) :
    (insertDescByStarted r l).Pairwise fun a b => b.started_at ≤ a.started_at := by
  induction l with
  | nil => simp [insertDescByStarted]
  | cons x xs ih =>
    rcases List.pairwise_cons.mp h with ⟨hx, hxs⟩
    simp only [insertDescByStarted]
    by_cases hc : x.started_at ≤ r.started_at
    · rw [if_pos hc]
      refine List.pairwise_cons.mpr ⟨?_, h⟩
      intro y hy
      rcases List.mem_cons.mp hy with rfl | hmem
      · exact hc
      · exact le_trans (hx y hmem) hc
    · rw [if_neg hc]
      refine List.pairwise_cons.mpr ⟨?_, ih hxs⟩
      intro y hy
      have hy' : y ∈ r :: xs := (insertDescByStarted_perm r xs).mem_iff.mp hy
      rcases List.mem_cons.mp hy' with rfl | hmem
      · exact le_of_lt (not_le.mp hc)
      · exact hx y hmem

lemma sortDescByStarted_sorted (l : List ServerSession) :
    (sortDescByStarted l).Pairwise fun a b => b.started_at ≤ a.started_at := by
  induction l with
  | nil => simp [sortDescByStarted]
  | cons x xs ih => exact insertDescByStarted_sorted x _ ih

lemma pairwise_take_drop {R : ServerSession → ServerSession → Prop}
    {l : List ServerSession} (h : l.Pairwise R) (n : Nat) :
    ∀ x ∈ l.drop n, ∀ y ∈ l.take n, R y x := by
  have hsplit := List.take_append_drop n l
  rw [← hsplit] at h
  have h2 := (List.pairwise_append.mp h).2.2
  intro x hx y hy
  exact h2 y hy x hx

/-! ### Config route lemmas -/

lemma mem_serverUpdateRun {tbl : List ServerRow} {img env sid : String}
    {r : ServerRow} (hr : r ∈ serverUpdateRun img env sid tbl) (hid : r.id = sid) :
    r.docker_image = img ∧ r.env_vars = env := by
  rcases List.mem_map.mp hr with ⟨r₀, _, heq⟩
  by_cases hc : r₀.id = sid
  · rw [if_pos hc] at heq
    rw [← heq]
    exact ⟨rfl, rfl⟩
  · rw [if_neg hc] at heq
    subst heq
    exact absurd hid hc

lemma mem_serverUpdateThemeRun {tbl : List ServerRow} {banner accent : Option String}
    {sid : String} {r : ServerRow} (hr : r ∈ serverUpdateThemeRun banner accent sid tbl) :
    ∃ r₀ ∈ tbl, r.docker_image = r₀.docker_image ∧ r.env_vars = r₀.env_vars ∧
      r.id = r₀.id := by
  rcases List.mem_map.mp hr with ⟨r₀, hr₀, heq⟩
  by_cases hc : r₀.id = sid
  · rw [if_pos hc] at heq
    exact ⟨r₀, hr₀, by rw [← heq], by rw [← heq], by rw [← heq]⟩
  · rw [if_neg hc] at heq
    subst heq
    exact ⟨r₀, hr₀, rfl, rfl, rfl⟩

/-! ## Claim theorems -/

/-- Claim C1, counterexample: in the faithful machine — where a container
death and the 30-second watcher poll are separate transitions, and the
start route closes a run only when `getActiveContainer()` finds a running
container — the completed-operation interleaving `Start("a")`, external
death of the `a` container, `Start("b")` reaches a state whose ledger
holds two rows with `stopped_at IS NULL` (the stale open run of `a` and
the fresh run of `b`), refuting the claimed invariant. -/
theorem C1_two_open_runs_reachable :
    ProgReachable
      ⟨[⟨0, "a", 100, none, none⟩, ⟨1, "b", 200, none, none⟩],
       some "b", ["b", "a"], [], 2⟩ ∧
    ¬ (openRuns [⟨0, "a", 100, none, none⟩,
        ⟨1, "b", 200, none, none⟩]).length ≤ 1 := by
  have h1 := ProgStep.startOk "a" 100 initialProgState
  have e1 : progStartOk "a" 100 initialProgState
      = ⟨[⟨0, "a", 100, none, none⟩], some "a", ["a"], [], 1⟩ := by decide
  rw [e1] at h1
  have h2 := ProgStep.containerDies "a"
    ⟨[⟨0, "a", 100, none, none⟩], some "a", ["a"], [], 1⟩ rfl
  have e2 : ({ (⟨[⟨0, "a", 100, none, none⟩], some "a", ["a"], [], 1⟩ : ProgState)
        with running := none })
      = (⟨[⟨0, "a", 100, none, none⟩], none, ["a"], [], 1⟩ : ProgState) := by decide
  rw [e2] at h2
  have h3 := ProgStep.startOk "b" 200
    ⟨[⟨0, "a", 100, none, none⟩], none, ["a"], [], 1⟩
  have e3 : progStartOk "b" 200 ⟨[⟨0, "a", 100, none, none⟩], none, ["a"], [], 1⟩
      = ⟨[⟨0, "a", 100, none, none⟩, ⟨1, "b", 200, none, none⟩],
         some "b", ["b", "a"], [], 2⟩ := by decide
  rw [e3] at h3
  exact ⟨ProgReachable.step (ProgReachable.step
    (ProgReachable.step ProgReachable.init h1) h2) h3, by decide⟩

/-- Claim C1, amended: at most one `server_sessions` row has
`stopped_at IS NULL` in every state reachable when each container death is
processed atomically with its crash-watcher callback (the `crashFires`
transition of the restricted machine): under that restriction Start closes
the open run of the active server before inserting the new open run, and
Stop and the crash callback close the open runs of their server.  Without
the restriction — a container dying externally with another Start
completing before the dead container is observed by its watcher — two
open rows are reachable, as the counterexample shows. -/
theorem C1_at_most_one_open_run_atomic (s : PanelState)
    (h : AtomicCrashReachable s) : (openRuns s.table).length ≤ 1 :=
  (atomicCrashInv_of_reachable h).2

/-- Witness for the amended C1: the state reached by `Start("mc")`
followed by the replacing `Start("vh")` satisfies the invariant. -/
theorem C1_at_most_one_open_run_atomic_witness :
    AtomicCrashReachable
      ⟨[⟨0, "mc", 100, some 200, some .replaced⟩, ⟨1, "vh", 200, none, none⟩],
       some "vh", 2⟩ ∧
    (openRuns [⟨0, "mc", 100, some 200, some .replaced⟩,
      ⟨1, "vh", 200, none, none⟩]).length ≤ 1 := by
  have h1 : AtomicCrashStep initialPanelState
      ⟨[⟨0, "mc", 100, none, none⟩], some "mc", 1⟩ := by
    have h := AtomicCrashStep.startOk "mc" 100 initialPanelState
    have e : (⟨sessionStartRun "mc" 100 initialPanelState.nextId
        (closeActiveTable 100 initialPanelState), some "mc",
        initialPanelState.nextId + 1⟩ : PanelState)
        = ⟨[⟨0, "mc", 100, none, none⟩], some "mc", 1⟩ := by decide
    rw [e] at h
    exact h
  have h2 : AtomicCrashStep ⟨[⟨0, "mc", 100, none, none⟩], some "mc", 1⟩
      ⟨[⟨0, "mc", 100, some 200, some .replaced⟩, ⟨1, "vh", 200, none, none⟩],
       some "vh", 2⟩ := by
    have h := AtomicCrashStep.startOk "vh" 200
      ⟨[⟨0, "mc", 100, none, none⟩], some "mc", 1⟩
    have e : (⟨sessionStartRun "vh" 200
        (PanelState.mk [⟨0, "mc", 100, none, none⟩] (some "mc") 1).nextId
        (closeActiveTable 200 ⟨[⟨0, "mc", 100, none, none⟩], some "mc", 1⟩), some "vh",
        (PanelState.mk [⟨0, "mc", 100, none, none⟩] (some "mc") 1).nextId + 1⟩ : PanelState)
        = ⟨[⟨0, "mc", 100, some 200, some .replaced⟩, ⟨1, "vh", 200, none, none⟩],
           some "vh", 2⟩ := by decide
    rw [e] at h
    exact h
  have hreach := AtomicCrashReachable.step
    (AtomicCrashReachable.step AtomicCrashReachable.init h1) h2
  exact ⟨hreach, C1_at_most_one_open_run_atomic _ hreach⟩

/-- Claim C2: For every `Start(id)` finding an active container `a`
(in particular when it replaces a different running server, `a ≠ id`), the
replaced open run is closed with `stop_reason = replaced` strictly before
the new run row is inserted, and the new container's `start()` runs only
after the old container's `stop()` returned: the event trace decomposes
with the close before the insert (no insert occurs earlier) and the old
stop before the new start (no start occurs earlier). -/
theorem C2_replacement_ordering (a id image : String) :
    (∃ l₁ l₂ l₃, (startRoute (some a) id image .ok).events
        = l₁ ++ [DockerEvent.closeRun a .replaced] ++ l₂
            ++ [DockerEvent.insertRun id] ++ l₃ ∧
        DockerEvent.insertRun id ∉ l₁ ∧ DockerEvent.insertRun id ∉ l₂) ∧
    (∃ m₁ m₂ m₃, (startRoute (some a) id image .ok).events
        = m₁ ++ [DockerEvent.stopContainer a] ++ m₂
            ++ [DockerEvent.containerStart id] ++ m₃ ∧
        DockerEvent.containerStart id ∉ m₁ ∧ DockerEvent.containerStart id ∉ m₂) := by
  constructor
  · refine ⟨[DockerEvent.markIntentional a],
      [DockerEvent.stopContainer a, DockerEvent.removeContainer id,
       DockerEvent.pullImage image, DockerEvent.createContainer id,
       DockerEvent.containerStart id],
      [DockerEvent.registerWatcher id], rfl, by simp, by simp⟩
  · refine ⟨[DockerEvent.markIntentional a, DockerEvent.closeRun a .replaced],
      [DockerEvent.removeContainer id, DockerEvent.pullImage image,
       DockerEvent.createContainer id],
      [DockerEvent.insertRun id, DockerEvent.registerWatcher id], rfl, by simp, by simp⟩

/-- Claim C3: Every `Start(id)` in which the image pull, the container
create, or the container start fails answers 500, inserts no run row for
`id` and registers no crash watcher for `id`. -/
theorem C3_start_failure (active : Option String) (id image : String)
    (outcome : StartOutcome) (h : outcome ≠ .ok) :
    (startRoute active id image outcome).status = 500 ∧
    DockerEvent.insertRun id ∉ (startRoute active id image outcome).events ∧
    DockerEvent.registerWatcher id ∉ (startRoute active id image outcome).events := by
  cases outcome with
  | ok => exact absurd rfl h
  | pullFails =>
    cases active <;>
      exact ⟨rfl, by simp [startRoute, startGameContainerTrace],
        by simp [startRoute, startGameContainerTrace]⟩
  | createFails =>
    cases active <;>
      exact ⟨rfl, by simp [startRoute, startGameContainerTrace],
        by simp [startRoute, startGameContainerTrace]⟩
  | startFails =>
    cases active <;>
      exact ⟨rfl, by simp [startRoute, startGameContainerTrace],
        by simp [startRoute, startGameContainerTrace]⟩

/-- Witness for C3 at a failing pull with an active container. -/
theorem C3_start_failure_witness :
    (StartOutcome.pullFails ≠ StartOutcome.ok) ∧
    ((startRoute (some "vh") "mc" "img" .pullFails).status = 500 ∧
     DockerEvent.insertRun "mc" ∉ (startRoute (some "vh") "mc" "img" .pullFails).events ∧
     DockerEvent.registerWatcher "mc"
       ∉ (startRoute (some "vh") "mc" "img" .pullFails).events) :=
  ⟨by decide, C3_start_failure (some "vh") "mc" "img" .pullFails (by decide)⟩

/-- Claim C5: the non-TTY log parser emits the payload of a frame only once all
`payloadLen` bytes are present (an incomplete buffer yields nothing and is
kept in full), and every partition of a byte stream into chunks emits the
identical line sequence in the identical order (both equal the one-chunk
emission of the concatenation). -/
theorem C5_log_framing (chunks : List (List Nat)) (buf : List Nat)
    (h : buf.length < 8 + readUInt32BE4 buf) :
    peelFrames buf = ([], buf) ∧
    processLogChunks chunks = processLogChunks [chunks.flatten] := by
  refine ⟨peelFrames_incomplete buf h, ?_⟩
  rw [processLogChunks_eq, processLogChunks_eq]
  simp

/-- Witness for C5 on the S5 frames of the spec (`Hello` / `World`). -/
theorem C5_log_framing_witness :
    ([1, 0, 0] : List Nat).length < 8 + readUInt32BE4 [1, 0, 0] ∧
    (peelFrames [1, 0, 0] = ([], [1, 0, 0]) ∧
     processLogChunks
        [[1, 0, 0, 0, 0, 0, 0, 5, 72, 101, 108, 108, 111],
         [1, 0, 0, 0, 0, 0, 0, 5, 87, 111, 114, 108, 100]]
       = processLogChunks
          [[[1, 0, 0, 0, 0, 0, 0, 5, 72, 101, 108, 108, 111],
            [1, 0, 0, 0, 0, 0, 0, 5, 87, 111, 114, 108, 100]].flatten]) :=
  ⟨by decide, C5_log_framing _ _ (by decide)⟩

/-- Sanity check mirroring scenario S5: the two frames emit exactly the
payload bytes of `Hello` and then `World`. -/
theorem s5_frames_emit_hello_world :
    processLogChunks
        [[1, 0, 0, 0, 0, 0, 0, 5, 72, 101, 108, 108, 111],
         [1, 0, 0, 0, 0, 0, 0, 5, 87, 111, 114, 108, 100]]
      = [[72, 101, 108, 108, 111], [87, 111, 114, 108, 100]] := by decide

/-- Claim C8: Every emitted stats record has `0 ≤ cpu_percent ≤ 100`, and
whenever `systemΔ ≤ 0` the emitted `cpu_percent` is exactly 0. -/
theorem C8_cpu_percent_clamped (s : DockerStatsJson) :
    0 ≤ (statsRecordOf s).cpuPercent ∧ (statsRecordOf s).cpuPercent ≤ 100 ∧
    (systemDeltaOf s ≤ 0 → (statsRecordOf s).cpuPercent = 0) := by
  refine ⟨le_max_left _ _, max_le (by norm_num) (min_le_right _ _), ?_⟩
  intro h
  show max 0 (min (if systemDeltaOf s > 0 then
      (s.cpu_stats.cpu_usage.total_usage - s.precpu_stats.cpu_usage.total_usage)
        / systemDeltaOf s
        * (s.cpu_stats.online_cpus.getD
            (((s.cpu_stats.cpu_usage.percpu_usage).map fun l => (l.length : ℚ)).getD 1))
        * 100
    else 0) 100) = 0
  rw [if_neg (not_lt.mpr h)]
  norm_num

/-- Claim C9: the endpoint `GET /servers/:id/history` returns at most 10 rows; when the
ledger holds at least 10 runs of the server it returns exactly 10; the
returned rows are in `started_at` descending order; and every run the
truncation drops started no later than every returned run (the endpoint
returns the 10 most recent runs). -/
theorem C9_history_truncated_to_ten (tbl : List ServerSession) (sid : String) :
    (historyHandler tbl sid).length ≤ 10 ∧
    (10 ≤ (tbl.filter fun r => r.server_id = sid).length →
      (historyHandler tbl sid).length = 10) ∧
    (historyQuery tbl sid).Pairwise (fun a b => b.started_at ≤ a.started_at) ∧
    (∀ x ∈ (sortDescByStarted (tbl.filter fun r => r.server_id = sid)).drop 10,
      ∀ y ∈ historyQuery tbl sid, x.started_at ≤ y.started_at) := by
  refine ⟨?_, ?_, ?_, ?_⟩
  · simp [historyHandler, historyQuery]
  · intro h
    have hlen : (sortDescByStarted (tbl.filter fun r => r.server_id = sid)).length
        = (tbl.filter fun r => r.server_id = sid).length :=
      (sortDescByStarted_perm _).length_eq
    simp only [historyHandler, historyQuery, List.length_map, List.length_take, hlen]
    omega
  · exact List.Pairwise.sublist (List.take_sublist _ _) (sortDescByStarted_sorted _)
  · intro x hx y hy
    exact pairwise_take_drop (sortDescByStarted_sorted _) 10 x hx y hy

/-- Claim C4, counterexample: With the stored `max_backups_per_server`
parsing to `0` (`parsedMax = some 0`), a successful create leaves one
backup row for the server, violating the claimed bound
`count ≤ max_backups_per_server = 0`: retention prunes against
`Number(v) || 5 = 5`, not 0. -/
theorem C4_counterexample :
    backupCount (createBackup [("/data/mc", "/data")] .stopped false 0
        (some 0) "mc" "f.tar.gz" 10 1 100 []).table "mc" = 1 ∧
    ¬ backupCount (createBackup [("/data/mc", "/data")] .stopped false 0
        (some 0) "mc" "f.tar.gz" 10 1 100 []).table "mc" ≤ 0 := by
  decide

/-- Claim C4, amended: After a successful backup create, the per-server
count is bounded by the *effective* limit
`Number(max_backups_per_server) || 5` whenever that limit is nonnegative
(the bound with the raw stored setting fails when it parses to 0 — see the
counterexample), and every row removed by retention belongs to this
server, is unlinked from disk together with its row, and was created no
later than every kept row of this server. -/
theorem C4_backup_cap_effective (volumes : List (String × String))
    (status : ContainerStatus) (pauseOk : Bool) (parsedMax : Option ℚ)
    (sid filename : String) (sizeBytes nextId now : Nat) (tbl : List Backup)
    (hvol : (volumes.map Prod.fst).filter (fun p => startsWithDataPrefix p) ≠ [])
    (hnd : ((tbl ++ [(⟨nextId, sid, filename, sizeBytes, now⟩ : Backup)]).map Backup.id).Nodup)
    (hmax : 0 ≤ effectiveMaxBackups parsedMax) :
    (backupCount (createBackup volumes status pauseOk 0 parsedMax sid filename
        sizeBytes nextId now tbl).table sid : ℚ) ≤ effectiveMaxBackups parsedMax ∧
    ∀ b ∈ tbl ++ [(⟨nextId, sid, filename, sizeBytes, now⟩ : Backup)],
      b ∉ (createBackup volumes status pauseOk 0 parsedMax sid filename
        sizeBytes nextId now tbl).table →
      b.server_id = sid ∧
      BackupEvent.unlinkFile b.filename ∈ (createBackup volumes status pauseOk 0
        parsedMax sid filename sizeBytes nextId now tbl).events ∧
      ∀ b' ∈ (createBackup volumes status pauseOk 0 parsedMax sid filename
          sizeBytes nextId now tbl).table, b'.server_id = sid →
        b.created_at ≤ b'.created_at := by
  have hR : createBackup volumes status pauseOk 0 parsedMax sid filename
      sizeBytes nextId now tbl
      = ⟨.ok ⟨nextId, sid, filename, sizeBytes, now⟩,
         (pruneLoop (effectiveMaxBackups parsedMax) sid
            (backupCount (tbl ++ [(⟨nextId, sid, filename, sizeBytes, now⟩ : Backup)]) sid + 1)
            (backupCount (tbl ++ [(⟨nextId, sid, filename, sizeBytes, now⟩ : Backup)]) sid)
            (tbl ++ [(⟨nextId, sid, filename, sizeBytes, now⟩ : Backup)])).1,
         (if status = ContainerStatus.running ∧ pauseOk = true
            then [BackupEvent.pause] else [])
           ++ [BackupEvent.tarCreate filename]
           ++ (if status = ContainerStatus.running ∧ pauseOk = true
                then [BackupEvent.unpause] else [])
           ++ [BackupEvent.insertRow filename]
           ++ (pruneLoop (effectiveMaxBackups parsedMax) sid
            (backupCount (tbl ++ [(⟨nextId, sid, filename, sizeBytes, now⟩ : Backup)]) sid + 1)
            (backupCount (tbl ++ [(⟨nextId, sid, filename, sizeBytes, now⟩ : Backup)]) sid)
            (tbl ++ [(⟨nextId, sid, filename, sizeBytes, now⟩ : Backup)])).2⟩ := by
    simp only [createBackup]
    rw [if_neg hvol, if_neg (show ¬ (0 : Nat) ≠ 0 from fun h => h rfl)]
  rw [hR]
  constructor
  · exact pruneLoop_count_le _ hmax sid _ _ _ hnd rfl le_rfl
  · intro b hb hnb
    have hspec := pruneLoop_removed_spec (effectiveMaxBackups parsedMax) sid
      (backupCount (tbl ++ [(⟨nextId, sid, filename, sizeBytes, now⟩ : Backup)]) sid + 1)
      (backupCount (tbl ++ [(⟨nextId, sid, filename, sizeBytes, now⟩ : Backup)]) sid)
      (tbl ++ [(⟨nextId, sid, filename, sizeBytes, now⟩ : Backup)]) hnd b hb hnb
    exact ⟨hspec.1, List.mem_append.mpr (Or.inr hspec.2.1), hspec.2.2⟩

/-- Witness for C4 (amended): a create against one existing row with the
setting parsed as `1` prunes down to the effective limit 1. -/
theorem C4_backup_cap_effective_witness :
    ((([("/data/mc", "/data")].map Prod.fst).filter
        (fun p => startsWithDataPrefix p) ≠ []) ∧
     ((([(⟨0, "mc", "old.tar.gz", 5, 50⟩ : Backup)] ++
        [(⟨1, "mc", "f.tar.gz", 10, 100⟩ : Backup)]).map Backup.id).Nodup) ∧
     0 ≤ effectiveMaxBackups (some 1)) ∧
    ((backupCount (createBackup [("/data/mc", "/data")] .stopped false 0 (some 1)
        "mc" "f.tar.gz" 10 1 100 [⟨0, "mc", "old.tar.gz", 5, 50⟩]).table "mc" : ℚ)
        ≤ effectiveMaxBackups (some 1) ∧
     ∀ b ∈ [(⟨0, "mc", "old.tar.gz", 5, 50⟩ : Backup)] ++ [(⟨1, "mc", "f.tar.gz", 10, 100⟩ : Backup)],
       b ∉ (createBackup [("/data/mc", "/data")] .stopped false 0 (some 1)
         "mc" "f.tar.gz" 10 1 100 [⟨0, "mc", "old.tar.gz", 5, 50⟩]).table →
       b.server_id = "mc" ∧
       BackupEvent.unlinkFile b.filename ∈ (createBackup [("/data/mc", "/data")]
         .stopped false 0 (some 1) "mc" "f.tar.gz" 10 1 100
         [⟨0, "mc", "old.tar.gz", 5, 50⟩]).events ∧
       ∀ b' ∈ (createBackup [("/data/mc", "/data")] .stopped false 0 (some 1)
           "mc" "f.tar.gz" 10 1 100 [⟨0, "mc", "old.tar.gz", 5, 50⟩]).table,
         b'.server_id = "mc" → b.created_at ≤ b'.created_at) :=
  ⟨⟨by decide, by decide, by decide⟩,
   C4_backup_cap_effective [("/data/mc", "/data")] .stopped false (some 1)
     "mc" "f.tar.gz" 10 1 100 [⟨0, "mc", "old.tar.gz", 5, 50⟩]
     (by decide) (by decide) (by decide)⟩

/-- Claim C6: A backup create that paused a running container and whose
archiver exits non-zero unpauses the container before returning (the
`finally` block runs on the error path), writes no backup row, and fails:
the completed effects are exactly pause, tar, unpause. -/
theorem C6_unpause_on_archiver_failure (volumes : List (String × String))
    (parsedMax : Option ℚ) (sid filename : String)
    (sizeBytes nextId now tarExit : Nat) (tbl : List Backup)
    (hvol : (volumes.map Prod.fst).filter (fun p => startsWithDataPrefix p) ≠ [])
    (htar : tarExit ≠ 0) :
    (createBackup volumes .running true tarExit parsedMax sid filename
        sizeBytes nextId now tbl).events
      = [.pause, .tarCreate filename, .unpause] ∧
    (createBackup volumes .running true tarExit parsedMax sid filename
        sizeBytes nextId now tbl).table = tbl ∧
    ∃ e, (createBackup volumes .running true tarExit parsedMax sid filename
        sizeBytes nextId now tbl).result = .error e := by
  have hR : createBackup volumes .running true tarExit parsedMax sid filename
      sizeBytes nextId now tbl
      = ⟨.error ("tar failed (exit " ++ toString tarExit ++ ")"), tbl,
         [.pause, .tarCreate filename, .unpause]⟩ := by
    simp only [createBackup]
    rw [if_neg hvol, if_pos htar]
    simp
  rw [hR]
  exact ⟨rfl, rfl, ⟨_, rfl⟩⟩

/-- Witness for C6 at a concrete failing archive run. -/
theorem C6_unpause_on_archiver_failure_witness :
    ((([("/data/mc", "/data")].map Prod.fst).filter
        (fun p => startsWithDataPrefix p) ≠ []) ∧ (1 : Nat) ≠ 0) ∧
    ((createBackup [("/data/mc", "/data")] .running true 1 (some 5)
        "mc" "f.tar.gz" 10 1 100 []).events
      = [.pause, .tarCreate "f.tar.gz", .unpause] ∧
     (createBackup [("/data/mc", "/data")] .running true 1 (some 5)
        "mc" "f.tar.gz" 10 1 100 []).table = [] ∧
     ∃ e, (createBackup [("/data/mc", "/data")] .running true 1 (some 5)
        "mc" "f.tar.gz" 10 1 100 []).result = .error e) :=
  ⟨⟨by decide, by decide⟩,
   C6_unpause_on_archiver_failure [("/data/mc", "/data")] (some 5) "mc"
     "f.tar.gz" 10 1 100 1 [] (by decide) (by decide)⟩

/-- Claim C7, counterexample: the handler `PUT /servers/:id/config` carries no
container-status guard at all (unlike DELETE): the handler's result does
not depend on the container status, so also for a running server it
answers 200 and mutates the row. -/
theorem C7_counterexample :
    (putConfigRoute [⟨"mc", "Minecraft", "sandbox", "img1", 25565, "x", "x",
        0, none, none⟩] "mc" "img2" "x" none).status = 200 ∧
    (putConfigRoute [⟨"mc", "Minecraft", "sandbox", "img1", 25565, "x", "x",
        0, none, none⟩] "mc" "img2" "x" none).servers
      ≠ [⟨"mc", "Minecraft", "sandbox", "img1", 25565, "x", "x",
          0, none, none⟩] := by
  decide

/-- Claim C7, amended: For a running server, `DELETE /servers/:id` is
refused with 400 and leaves both the server and the run tables unchanged;
`PUT /servers/:id/config`, by contrast, answers 200 and applies the
mutation for every existing server regardless of container status (it
never consults the status): each row of the result with the target id
carries the new image and env JSON. -/
theorem C7_delete_guarded_put_unguarded (servers : List ServerRow)
    (sessions : List ServerSession) (sid : String) (srv : ServerRow)
    (img env : String) (ac : Option (Option String))
    (hfind : servers.find? (fun r => r.id = sid) = some srv) :
    deleteServerRoute servers sessions .running sid = ⟨400, servers, sessions⟩ ∧
    (putConfigRoute servers sid img env ac).status = 200 ∧
    ∀ r ∈ (putConfigRoute servers sid img env ac).servers,
      r.id = sid → r.docker_image = img ∧ r.env_vars = env := by
  have hserv : (putConfigRoute servers sid img env ac).servers
      = match ac with
        | some acv => serverUpdateThemeRun srv.banner_path acv sid
            (serverUpdateRun img env sid servers)
        | none => serverUpdateRun img env sid servers := by
    unfold putConfigRoute
    rw [hfind]
  refine ⟨?_, ?_, ?_⟩
  · unfold deleteServerRoute
    rw [hfind, if_pos rfl]
  · unfold putConfigRoute
    rw [hfind]
  · intro r hr hid
    rw [hserv] at hr
    cases ac with
    | none => exact mem_serverUpdateRun hr hid
    | some acv =>
      rcases mem_serverUpdateThemeRun hr with ⟨r₀, hr₀, himg, henv, hideq⟩
      have h₀ := mem_serverUpdateRun hr₀ (hideq ▸ hid)
      rw [himg, henv]
      exact h₀

/-- Witness for C7 (amended) at a concrete running server. -/
theorem C7_delete_guarded_put_unguarded_witness :
    ([(⟨"mc", "Minecraft", "sandbox", "img1", 25565, "x", "x", 0, none,
        none⟩ : ServerRow)].find? (fun r => r.id = "mc")
      = some ⟨"mc", "Minecraft", "sandbox", "img1", 25565, "x", "x",
          0, none, none⟩) ∧
    (deleteServerRoute [⟨"mc", "Minecraft", "sandbox", "img1", 25565, "x", "x",
        0, none, none⟩] [⟨0, "mc", 100, none, none⟩] .running "mc"
      = ⟨400, [⟨"mc", "Minecraft", "sandbox", "img1", 25565, "x", "x",
          0, none, none⟩], [⟨0, "mc", 100, none, none⟩]⟩ ∧
     (putConfigRoute [⟨"mc", "Minecraft", "sandbox", "img1", 25565, "x", "x",
        0, none, none⟩] "mc" "img2" "x" none).status = 200 ∧
     ∀ r ∈ (putConfigRoute [⟨"mc", "Minecraft", "sandbox", "img1", 25565, "x",
        "x", 0, none, none⟩] "mc" "img2" "x" none).servers,
       r.id = "mc" → r.docker_image = "img2" ∧ r.env_vars = "x") :=
  ⟨by decide,
   C7_delete_guarded_put_unguarded
     [⟨"mc", "Minecraft", "sandbox", "img1", 25565, "x", "x", 0, none, none⟩]
     [⟨0, "mc", 100, none, none⟩] "mc"
     ⟨"mc", "Minecraft", "sandbox", "img1", 25565, "x", "x", 0, none, none⟩
     "img2" "x" none (by decide)⟩

/-- Claim C10: When the stored `max_backups_per_server` parses to 0 or to
NaN, `Number(v) || 5` makes retention prune against the limit 5: the
effective limit is 5, pruning keeps `min count 5` rows of the server (so
after a successful create the count can stand as high as 5), and pruning a
server that has at least one backup never deletes every backup. -/
theorem C10_zero_setting_prunes_against_five (parsed : Option ℚ) (sid : String)
    (tbl : List Backup) (hparsed : parsed = none ∨ parsed = some 0)
    (hnd : (tbl.map Backup.id).Nodup) :
    effectiveMaxBackups parsed = 5 ∧
    backupCount (pruneOldBackups parsed sid tbl).1 sid
      = min (backupCount tbl sid) 5 ∧
    (1 ≤ backupCount tbl sid →
      1 ≤ backupCount (pruneOldBackups parsed sid tbl).1 sid) := by
  have heff : effectiveMaxBackups parsed = 5 := by
    rcases hparsed with rfl | rfl
    · rfl
    · simp [effectiveMaxBackups]
  have hmin : backupCount (pruneOldBackups parsed sid tbl).1 sid
      = min (backupCount tbl sid) 5 := by
    unfold pruneOldBackups
    rw [heff, show (5 : ℚ) = ((5 : Nat) : ℚ) by norm_num]
    exact pruneLoop_count_min 5 sid _ _ tbl hnd rfl le_rfl
  exact ⟨heff, hmin, fun h => by rw [hmin]; omega⟩

/-- Witness for C10: seven backups of one server prune down to exactly 5
when the stored setting parses to 0. -/
theorem C10_zero_setting_prunes_against_five_witness :
    ((some (0 : ℚ) = none ∨ some (0 : ℚ) = some 0) ∧
     (([⟨0, "mc", "b0", 1, 10⟩, ⟨1, "mc", "b1", 1, 20⟩, ⟨2, "mc", "b2", 1, 30⟩,
        ⟨3, "mc", "b3", 1, 40⟩, ⟨4, "mc", "b4", 1, 50⟩, ⟨5, "mc", "b5", 1, 60⟩,
        ⟨6, "mc", "b6", 1, 70⟩] : List Backup).map Backup.id).Nodup) ∧
    (effectiveMaxBackups (some 0) = 5 ∧
     backupCount (pruneOldBackups (some 0) "mc"
        [⟨0, "mc", "b0", 1, 10⟩, ⟨1, "mc", "b1", 1, 20⟩, ⟨2, "mc", "b2", 1, 30⟩,
         ⟨3, "mc", "b3", 1, 40⟩, ⟨4, "mc", "b4", 1, 50⟩, ⟨5, "mc", "b5", 1, 60⟩,
         ⟨6, "mc", "b6", 1, 70⟩]).1 "mc"
       = min (backupCount
          [⟨0, "mc", "b0", 1, 10⟩, ⟨1, "mc", "b1", 1, 20⟩, ⟨2, "mc", "b2", 1, 30⟩,
           ⟨3, "mc", "b3", 1, 40⟩, ⟨4, "mc", "b4", 1, 50⟩, ⟨5, "mc", "b5", 1, 60⟩,
           ⟨6, "mc", "b6", 1, 70⟩] "mc") 5 ∧
     (1 ≤ backupCount
          [⟨0, "mc", "b0", 1, 10⟩, ⟨1, "mc", "b1", 1, 20⟩, ⟨2, "mc", "b2", 1, 30⟩,
           ⟨3, "mc", "b3", 1, 40⟩, ⟨4, "mc", "b4", 1, 50⟩, ⟨5, "mc", "b5", 1, 60⟩,
           ⟨6, "mc", "b6", 1, 70⟩] "mc" →
        1 ≤ backupCount (pruneOldBackups (some 0) "mc"
          [⟨0, "mc", "b0", 1, 10⟩, ⟨1, "mc", "b1", 1, 20⟩, ⟨2, "mc", "b2", 1, 30⟩,
           ⟨3, "mc", "b3", 1, 40⟩, ⟨4, "mc", "b4", 1, 50⟩, ⟨5, "mc", "b5", 1, 60⟩,
           ⟨6, "mc", "b6", 1, 70⟩]).1 "mc")) :=
  ⟨⟨Or.inr rfl, by decide⟩,
   C10_zero_setting_prunes_against_five (some 0) "mc"
     [⟨0, "mc", "b0", 1, 10⟩, ⟨1, "mc", "b1", 1, 20⟩, ⟨2, "mc", "b2", 1, 30⟩,
      ⟨3, "mc", "b3", 1, 40⟩, ⟨4, "mc", "b4", 1, 50⟩, ⟨5, "mc", "b5", 1, 60⟩,
      ⟨6, "mc", "b6", 1, 70⟩] (Or.inr rfl) (by decide)⟩

end GameDashboard
